import Mathlib

set_option maxRecDepth 100000

/-!
Verification of the timetable-extraction service.

This file gives a shallow embedding, in Lean, of the parts of the
TypeScript source that the verified claims are about:

* `src/services/extractionValidator.ts`  (ExtractionValidator)
* `src/services/complexityAnalyzer.ts`   (ComplexityAnalyzer, ClaudeService.parseClaudeResponse)
* `src/services/extractionOrchestrator.ts` (ExtractionOrchestrator.extract)
* `src/services/sqsService.ts`           (SQSService.enqueueJob)
* `src/utils/fileProcessor.ts`           (FileProcessor.processFile)
* the v2 HTTP route handlers (upload, cancel)

Conventions of the embedding:

* A time-of-day string of the form HH:MM is represented by the pair of
  numbers it parses to (`timeToMinutes` splits on the colon and computes
  hours*60+minutes, exactly as the source does).  Rendering back into a
  message string uses the canonical two-digit form.
* JavaScript text processed character by character (regex matching in
  the complexity analyzer and the Claude response parser) is modeled as
  `List Char`.
* Async methods that can reject are modeled as `Except String`-valued
  functions; calls to external services (S3, SQS, Prisma, the Claude and
  Document AI APIs, Tesseract, sharp, fs) are oracle fields of an
  environment record, one per call site, so a run of a handler is a pure
  function of the environment.
* JavaScript number arithmetic is modeled with exact arithmetic
  (`Int` for minute arithmetic, `Rat` for the heuristic scores).
* Fields that are optional in the TypeScript interfaces are `Option`s;
  the TimeBlock/RecurringBlock/ExtractedData field lists follow the
  data model of the specification (the types/timetable.ts file itself
  is not part of the provided sources).
-/

/-- Time of day, as the (hours, minutes) pair a HH:MM string parses into. -/
structure HM where
  hours : Nat
  minutes : Nat
deriving DecidableEq, Repr

/-- The timeToMinutes helper of ExtractionValidator: hours * 60 + minutes.
Returned as Int because the validator subtracts two such values. -/
def timeToMinutes (t : HM) : Int :=
  (t.hours : Int) * 60 + (t.minutes : Int)

/-- Render a time back to its HH:MM string (the minutesToTime format). -/
def hmToString (t : HM) : String :=
  (if t.hours < 10 then "0" ++ toString t.hours else toString t.hours)
    ++ ":" ++
  (if t.minutes < 10 then "0" ++ toString t.minutes else toString t.minutes)

/-- A TimeBlock of the timetable data model: one event on one weekday. -/
structure TimeBlock where
  day : String
  startTime : HM
  endTime : HM
  eventName : String
  notes : Option String := none
  color : Option String := none
  confidence : Option Rat := none
  isFixed : Bool := false
deriving DecidableEq, Repr

/-- A RecurringBlock: a daily fixture at a fixed time. -/
structure RecurringBlock where
  startTime : HM
  endTime : HM
  eventName : String
  appliesDaily : Bool
  notes : Option String := none
deriving DecidableEq, Repr

/-- Timetable metadata (each field optional, as in the source). -/
structure TimetableMetadata where
  teacherName : Option String := none
  className : Option String := none
  term : Option String := none
  week : Option String := none
deriving DecidableEq, Repr

/-- ExtractedData: the structured output of an extraction backend. -/
structure ExtractedData where
  metadata : TimetableMetadata := {}
  blocks : List TimeBlock
  recurringBlocks : Option (List RecurringBlock) := none
  warnings : Option (List String) := none
deriving DecidableEq, Repr

/-- The warning categories of ValidationWarning.type. -/
inductive WarningType where
  | gap
  | overlap
  | missing_coverage
  | invalid_time
deriving DecidableEq, Repr

/-- The payloads the validator stores in ValidationWarning.details
(an untyped object in the source; one constructor per shape used). -/
inductive WarningDetails where
  | overlapped (prev current : TimeBlock)
  | coveredGap (gapMinutes : Int) (coveredByRecurring : Bool)
  | smallGap (gapMinutes : Int) (prevName : String) (extended : Bool)
  | insertedBlock (gapMinutes : Int) (insertedName : String)
  | missingStart (firstStart : HM)
  | missingEnd (lastEnd : HM)
deriving DecidableEq, Repr

/-- A ValidationWarning emitted by the validator. -/
structure ValidationWarning where
  wtype : WarningType
  day : Option String := none
  message : String
  details : Option WarningDetails := none
deriving DecidableEq, Repr

/-- A start/stop pair of minute values (a recurring block's time range). -/
structure TimeRange where
  start : Int
  stop : Int
deriving DecidableEq, Repr

/-- The DAYS constant of ExtractionValidator. -/
def DAYS : List String :=
  ["Monday", "Tuesday", "Wednesday", "Thursday", "Friday"]

/-- Minute key of a block's start time. -/
def sk (b : TimeBlock) : Int := timeToMinutes b.startTime

/-- Minute key of a block's end time. -/
def ek (b : TimeBlock) : Int := timeToMinutes b.endTime

/-- getRecurringTimeRanges: time ranges covered by the recurring blocks. -/
def getRecurringTimeRanges (recurringBlocks : List RecurringBlock) : List TimeRange :=
  recurringBlocks.map (fun block =>
    { start := timeToMinutes block.startTime, stop := timeToMinutes block.endTime })

/-- overlapsRecurringBlock: the three-clause overlap test of the source. -/
def overlapsRecurringBlock (startMinutes endMinutes : Int)
    (recurringRanges : List TimeRange) : Bool :=
  recurringRanges.any (fun range =>
    (startMinutes ≥ range.start && startMinutes < range.stop) ||
    (endMinutes > range.start && endMinutes ≤ range.stop) ||
    (startMinutes ≤ range.start && endMinutes ≥ range.stop))

/-- The stable comparator used by the validator's sort: ascending
timeToMinutes of startTime. -/
def blockLE (a b : TimeBlock) : Prop := sk a ≤ sk b

instance : DecidableRel blockLE := fun a b => by unfold blockLE; infer_instance

instance : IsTotal TimeBlock blockLE :=
  ⟨fun a b => le_total (sk a) (sk b)⟩

instance : IsTrans TimeBlock blockLE :=
  ⟨fun _ _ _ h h' => le_trans h h'⟩

/-- The per-day sort of the validator.  JavaScript's Array.prototype.sort
with comparator timeToMinutes(a.startTime) - timeToMinutes(b.startTime) is
a stable sort; insertionSort with the non-strict comparator has exactly
that behavior (earlier elements stay in front of later, equal-key ones). -/
def sortBlocks (l : List TimeBlock) : List TimeBlock :=
  l.insertionSort blockLE

/-- The overlap warning of validateDay. -/
def overlapWarning (day : String) (prev current : TimeBlock) : ValidationWarning :=
  { wtype := .overlap
    day := some day
    message := "Overlap on " ++ day ++ ": " ++ prev.eventName ++ " ("
        ++ hmToString prev.startTime ++ "-" ++ hmToString prev.endTime
        ++ ") overlaps with " ++ current.eventName ++ " ("
        ++ hmToString current.startTime ++ "-" ++ hmToString current.endTime ++ ")"
    details := some (.overlapped prev current) }

/-- The covered-gap warning of validateDay. -/
def coveredGapWarning (day : String) (gapMinutes : Int) (prev current : TimeBlock) :
    ValidationWarning :=
  { wtype := .gap
    day := some day
    message := toString gapMinutes ++ "-minute gap on " ++ day ++ " ("
        ++ hmToString prev.endTime ++ "-" ++ hmToString current.startTime
        ++ ") covered by recurring block - not filled"
    details := some (.coveredGap gapMinutes true) }

/-- The small-gap warning of validateDay. -/
def smallGapWarning (day : String) (gapMinutes : Int) (prev current : TimeBlock) :
    ValidationWarning :=
  { wtype := .gap
    day := some day
    message := "Small " ++ toString gapMinutes ++ "-minute gap filled on " ++ day
        ++ " by extending " ++ prev.eventName ++ " from " ++ hmToString prev.endTime
        ++ " to " ++ hmToString current.startTime
    details := some (.smallGap gapMinutes prev.eventName true) }

/-- The synthetic block validateDay inserts into a larger gap. -/
def transitionBlock (day : String) (gapMinutes : Int) (prev current : TimeBlock) :
    TimeBlock :=
  { day := day
    startTime := prev.endTime
    endTime := current.startTime
    eventName := if gapMinutes ≥ 10 then "Free Period" else "Transition"
    notes := some ("Auto-inserted to fill " ++ toString gapMinutes ++ "-minute gap")
    isFixed := false }

/-- The gap-filled warning of validateDay. -/
def gapFilledWarning (day : String) (gapMinutes : Int) (prev current : TimeBlock) :
    ValidationWarning :=
  { wtype := .gap
    day := some day
    message := toString gapMinutes ++ "-minute gap on " ++ day ++ " filled with "
        ++ (transitionBlock day gapMinutes prev current).eventName ++ " block ("
        ++ hmToString prev.endTime ++ "-" ++ hmToString current.startTime ++ ")"
    details := some (.insertedBlock gapMinutes
        (transitionBlock day gapMinutes prev current).eventName) }

/-- One iteration of the validateDay loop.  The accumulated result list is
kept in reverse order (its head is result[result.length-1], the prev the
source mutates in place); the warnings list is kept in emission order. -/
def validateStep (day : String) (recurringRanges : List TimeRange)
    (st : List TimeBlock × List ValidationWarning) (current : TimeBlock) :
    List TimeBlock × List ValidationWarning :=
  match st with
  | ([], ws) => ([current], ws)
  | (prev :: rest, ws) =>
    let prevEndMinutes := timeToMinutes prev.endTime
    let currentStartMinutes := timeToMinutes current.startTime
    let gapMinutes : Int := currentStartMinutes - prevEndMinutes
    if gapMinutes < 0 then
      (current :: { prev with endTime := current.startTime } :: rest,
       ws ++ [overlapWarning day prev current])
    else if gapMinutes > 0 then
      if overlapsRecurringBlock prevEndMinutes currentStartMinutes recurringRanges then
        (current :: prev :: rest, ws ++ [coveredGapWarning day gapMinutes prev current])
      else if gapMinutes ≤ 5 then
        (current :: { prev with endTime := current.startTime } :: rest,
         ws ++ [smallGapWarning day gapMinutes prev current])
      else
        (current :: transitionBlock day gapMinutes prev current :: prev :: rest,
         ws ++ [gapFilledWarning day gapMinutes prev current])
    else
      (current :: prev :: rest, ws)

/-- validateDay: validate and fix a single day's (already sorted) timeline. -/
def validateDay (day : String) (blocks : List TimeBlock)
    (recurringRanges : List TimeRange) : List TimeBlock × List ValidationWarning :=
  match blocks with
  | [] => ([], [])
  | first :: others =>
    let p := others.foldl (validateStep day recurringRanges) ([first], [])
    (p.1.reverse, p.2)

/-- The result record of ExtractionValidator.validate. -/
structure ValidateResult where
  data : ExtractedData
  warnings : List ValidationWarning
deriving DecidableEq, Repr

/-- The recurring time ranges a dataset's validation works against. -/
def rrOf (data : ExtractedData) : List TimeRange :=
  getRecurringTimeRanges (data.recurringBlocks.getD [])

/-- The body of validate's loop over DAYS: filter, sort, skip empty days,
validate the rest, append blocks and warnings to the accumulator. -/
def validateDayStep (data : ExtractedData)
    (acc : List TimeBlock × List ValidationWarning) (day : String) :
    List TimeBlock × List ValidationWarning :=
  let dayBlocks := sortBlocks (data.blocks.filter (fun b => b.day = day))
  if dayBlocks.length = 0 then acc
  else
    let fixed := validateDay day dayBlocks (rrOf data)
    (acc.1 ++ fixed.1, acc.2 ++ fixed.2)

/-- ExtractionValidator.validate: per weekday, filter, sort, fix, collect. -/
def validate (data : ExtractedData) : ValidateResult :=
  let folded := DAYS.foldl (validateDayStep data) ([], [])
  { data := { data with
        blocks := folded.1
        warnings := some (data.warnings.getD [] ++ folded.2.map (fun w => w.message)) }
    warnings := folded.2 }

/-! ### Structural lemmas about the validator -/

/-- Relation between two consecutive blocks of a validated day (in output
order): either exactly adjacent, or separated by a positive gap that the
source's recurring-overlap test accepts. -/
def linkOk (rr : List TimeRange) (a b : TimeBlock) : Prop :=
  ek a = sk b ∨ (ek a < sk b ∧ overlapsRecurringBlock (ek a) (sk b) rr = true)

/-- Invariant carried through the validateDay fold, phrased on the reversed
accumulator (whose head is the newest block, the prev the source mutates). -/
def RevOk (rr : List TimeRange) (l : List TimeBlock) : Prop :=
  (∀ b ∈ l, sk b ≤ ek b) ∧
  List.Chain' (fun a b => linkOk rr b a ∧ sk b ≤ sk a) l

theorem revOk_cons {rr : List TimeRange} {cur : TimeBlock} {l : List TimeBlock}
    (h : RevOk rr l)
    (hlink : ∀ y ∈ l.head?, linkOk rr y cur ∧ sk y ≤ sk cur)
    (hse : sk cur ≤ ek cur) : RevOk rr (cur :: l) := by
  refine ⟨?_, List.chain'_cons'.mpr ⟨hlink, h.2⟩⟩
  intro b hb
  rcases List.mem_cons.mp hb with hb | hb
  · exact hb ▸ hse
  · exact h.1 b hb

theorem revOk_replace_head {rr : List TimeRange} {prev prev' : TimeBlock}
    {rest : List TimeBlock}
    (h : RevOk rr (prev :: rest)) (hs : sk prev' = sk prev)
    (hse : sk prev' ≤ ek prev') : RevOk rr (prev' :: rest) := by
  obtain ⟨h1, h2⟩ := h
  rw [List.chain'_cons'] at h2
  refine ⟨?_, List.chain'_cons'.mpr ⟨?_, h2.2⟩⟩
  · intro b hb
    rcases List.mem_cons.mp hb with hb | hb
    · exact hb ▸ hse
    · exact h1 b (List.mem_cons_of_mem _ hb)
  · intro y hy
    have hold := h2.1 y hy
    unfold linkOk at hold ⊢
    rw [hs]
    exact hold

theorem sk_set_endTime (prev : TimeBlock) (t : HM) :
    sk { prev with endTime := t } = sk prev := rfl

theorem ek_set_endTime (prev : TimeBlock) (t : HM) :
    ek { prev with endTime := t } = timeToMinutes t := rfl

theorem transitionBlock_sk (day : String) (g : Int) (prev cur : TimeBlock) :
    sk (transitionBlock day g prev cur) = ek prev := rfl

theorem transitionBlock_ek (day : String) (g : Int) (prev cur : TimeBlock) :
    ek (transitionBlock day g prev cur) = sk cur := rfl

/-- One validateStep both keeps the invariant and leaves the new block on
top of the accumulator. -/
theorem validateStep_inv (day : String) (rr : List TimeRange)
    (prev : TimeBlock) (rest : List TimeBlock) (ws : List ValidationWarning)
    (cur : TimeBlock)
    (hinv : RevOk rr (prev :: rest))
    (hup : sk prev ≤ sk cur) (hcur : sk cur < ek cur) :
    (validateStep day rr (prev :: rest, ws) cur).1.head? = some cur ∧
    RevOk rr (validateStep day rr (prev :: rest, ws) cur).1 := by
  have hprevse : sk prev ≤ ek prev := hinv.1 prev (List.mem_cons_self _ _)
  have hskc : sk cur = timeToMinutes cur.startTime := rfl
  have hekp : ek prev = timeToMinutes prev.endTime := rfl
  simp only [validateStep]
  split_ifs with h1 h2 h3 h4
  all_goals simp only []
  · -- overlap: sk cur < ek prev
    refine ⟨rfl, revOk_cons (revOk_replace_head hinv rfl ?_) ?_ (le_of_lt hcur)⟩
    · rw [sk_set_endTime, ek_set_endTime]; exact hup
    · intro y hy
      simp only [List.head?_cons, Option.mem_def, Option.some.injEq] at hy
      subst hy
      exact ⟨Or.inl (ek_set_endTime _ _), hup⟩
  · -- gap covered by recurring
    refine ⟨rfl, revOk_cons hinv ?_ (le_of_lt hcur)⟩
    intro y hy
    simp only [List.head?_cons, Option.mem_def, Option.some.injEq] at hy
    subst hy
    exact ⟨Or.inr ⟨by omega, h3⟩, hup⟩
  · -- small gap: extend prev
    refine ⟨rfl, revOk_cons (revOk_replace_head hinv rfl ?_) ?_ (le_of_lt hcur)⟩
    · rw [sk_set_endTime, ek_set_endTime]; exact hup
    · intro y hy
      simp only [List.head?_cons, Option.mem_def, Option.some.injEq] at hy
      subst hy
      exact ⟨Or.inl (ek_set_endTime _ _), hup⟩
  · -- larger gap: insert synthetic block
    have hlt : ek prev < sk cur := by omega
    refine ⟨rfl, revOk_cons (revOk_cons hinv ?_ ?_) ?_ (le_of_lt hcur)⟩
    · intro y hy
      simp only [List.head?_cons, Option.mem_def, Option.some.injEq] at hy
      subst hy
      exact ⟨Or.inl (transitionBlock_sk _ _ _ _).symm,
        le_trans hprevse (le_of_eq (transitionBlock_sk _ _ _ _).symm)⟩
    · rw [transitionBlock_sk, transitionBlock_ek]; exact le_of_lt hlt
    · intro y hy
      simp only [List.head?_cons, Option.mem_def, Option.some.injEq] at hy
      subst hy
      exact ⟨Or.inl (transitionBlock_ek _ _ _ _), by
        rw [transitionBlock_sk]; exact le_of_lt hlt⟩
  · -- zero gap
    have : ek prev = sk cur := by omega
    refine ⟨rfl, revOk_cons hinv ?_ (le_of_lt hcur)⟩
    intro y hy
    simp only [List.head?_cons, Option.mem_def, Option.some.injEq] at hy
    subst hy
    exact ⟨Or.inl this, hup⟩

/-- The validateDay fold keeps the invariant. -/
theorem validateDay_foldl_inv (day : String) (rr : List TimeRange) :
    ∀ (others accRest : List TimeBlock) (prev : TimeBlock)
      (ws : List ValidationWarning),
      RevOk rr (prev :: accRest) →
      (∀ c ∈ others, sk c < ek c) →
      List.Sorted blockLE (prev :: others) →
      ∃ q qrest,
        (others.foldl (validateStep day rr) (prev :: accRest, ws)).1 = q :: qrest ∧
        RevOk rr (q :: qrest)
  | [], accRest, prev, ws, hinv, _, _ => ⟨prev, accRest, rfl, hinv⟩
  | cur :: more, accRest, prev, ws, hinv, hse, hsorted => by
    have hup : sk prev ≤ sk cur :=
      (List.sorted_cons.mp hsorted).1 cur (List.mem_cons_self _ _)
    have hcur : sk cur < ek cur := hse cur (List.mem_cons_self _ _)
    obtain ⟨hhead, hinv'⟩ := validateStep_inv day rr prev accRest ws cur hinv hup hcur
    rw [List.foldl_cons]
    set r := validateStep day rr (prev :: accRest, ws) cur with hr
    match hr1 : r.1 with
    | [] => rw [hr1] at hhead; simp at hhead
    | q :: qrest =>
      have hq : q = cur := by
        rw [hr1] at hhead
        simpa using hhead
      subst hq
      have hre : r = (q :: qrest, r.2) := Prod.ext hr1 rfl
      rw [hre] at hinv'
      rw [hre]
      exact validateDay_foldl_inv day rr more qrest q _ hinv'
        (fun c hc => hse c (List.mem_cons_of_mem _ hc))
        (List.sorted_cons.mp hsorted).2

/-- All blocks produced by a validateStep keep the day of their inputs. -/
theorem validateStep_day (day : String) (rr : List TimeRange)
    (st : List TimeBlock × List ValidationWarning) (cur : TimeBlock)
    (hst : ∀ b ∈ st.1, b.day = day) (hc : cur.day = day) :
    ∀ b ∈ (validateStep day rr st cur).1, b.day = day := by
  obtain ⟨l, ws⟩ := st
  match l with
  | [] =>
    intro b hb
    simp only [validateStep, List.mem_singleton] at hb
    exact hb ▸ hc
  | prev :: rest =>
    have hprev : prev.day = day := hst prev (List.mem_cons_self _ _)
    have hrest : ∀ b ∈ rest, b.day = day :=
      fun b hb => hst b (List.mem_cons_of_mem _ hb)
    intro b hb
    simp only [validateStep] at hb
    split_ifs at hb
    · rcases List.mem_cons.mp hb with rfl | hb
      · exact hc
      rcases List.mem_cons.mp hb with rfl | hb
      · exact hprev
      · exact hrest b hb
    · rcases List.mem_cons.mp hb with rfl | hb
      · exact hc
      rcases List.mem_cons.mp hb with rfl | hb
      · exact hprev
      · exact hrest b hb
    · rcases List.mem_cons.mp hb with rfl | hb
      · exact hc
      rcases List.mem_cons.mp hb with rfl | hb
      · exact hprev
      · exact hrest b hb
    · rcases List.mem_cons.mp hb with rfl | hb
      · exact hc
      rcases List.mem_cons.mp hb with rfl | hb
      · rfl
      rcases List.mem_cons.mp hb with rfl | hb
      · exact hprev
      · exact hrest b hb
    · rcases List.mem_cons.mp hb with rfl | hb
      · exact hc
      rcases List.mem_cons.mp hb with rfl | hb
      · exact hprev
      · exact hrest b hb

/-- All blocks produced by validateDay carry that day. -/
theorem validateDay_day (day : String) (rr : List TimeRange) (l : List TimeBlock)
    (hl : ∀ b ∈ l, b.day = day) :
    ∀ b ∈ (validateDay day l rr).1, b.day = day := by
  match l with
  | [] => intro b hb; simp [validateDay] at hb
  | first :: others =>
    have haux : ∀ (os : List TimeBlock) (acc : List TimeBlock × List ValidationWarning),
        (∀ b ∈ acc.1, b.day = day) → (∀ c ∈ os, c.day = day) →
        ∀ b ∈ (os.foldl (validateStep day rr) acc).1, b.day = day := by
      intro os
      induction os with
      | nil => intro acc hacc _; exact hacc
      | cons c os ih =>
        intro acc hacc hos
        rw [List.foldl_cons]
        exact ih _ (validateStep_day day rr acc c hacc (hos c (List.mem_cons_self _ _)))
          (fun d hd => hos d (List.mem_cons_of_mem _ hd))
    intro b hb
    simp only [validateDay] at hb
    have := haux others ([first], [])
      (by
        intro b hb
        simp only [List.mem_singleton] at hb
        exact hb ▸ hl first (List.mem_cons_self _ _))
      (fun c hc => hl c (List.mem_cons_of_mem _ hc))
    exact this b (List.mem_reverse.mp hb)

/-- Structural properties of a validated day: every block has start ≤ end,
consecutive blocks are linked (adjacent or covered gap), and the output is
sorted by start time. -/
theorem validateDay_blocks_props (day : String) (rr : List TimeRange)
    (l : List TimeBlock)
    (hse : ∀ b ∈ l, sk b < ek b) (hsort : List.Sorted blockLE l) :
    (∀ b ∈ (validateDay day l rr).1, sk b ≤ ek b) ∧
    List.Chain' (linkOk rr) (validateDay day l rr).1 ∧
    List.Chain' blockLE (validateDay day l rr).1 := by
  match l with
  | [] => simp [validateDay]
  | first :: others =>
    have hfirst : sk first < ek first := hse first (List.mem_cons_self _ _)
    have hinv0 : RevOk rr [first] := by
      refine ⟨?_, List.chain'_singleton _⟩
      intro b hb
      simp only [List.mem_singleton] at hb
      exact hb ▸ le_of_lt hfirst
    obtain ⟨q, qrest, heq, hrev⟩ := validateDay_foldl_inv day rr others [] first []
      hinv0 (fun c hc => hse c (List.mem_cons_of_mem _ hc)) hsort
    have hblocks : (validateDay day (first :: others) rr).1 = (q :: qrest).reverse := by
      simp only [validateDay]
      rw [heq]
    rw [hblocks]
    refine ⟨?_, ?_, ?_⟩
    · intro b hb
      exact hrev.1 b (List.mem_reverse.mp hb)
    · rw [List.chain'_reverse]
      exact hrev.2.imp (fun a b hab => hab.1)
    · rw [List.chain'_reverse]
      exact hrev.2.imp (fun a b hab => hab.2)

/-- If consecutive input blocks are already linked, the validateDay fold
only copies blocks across. -/
theorem validateDay_fixpoint_fold (day : String) (rr : List TimeRange) :
    ∀ (others accRest : List TimeBlock) (prev : TimeBlock)
      (ws : List ValidationWarning),
      List.Chain' (linkOk rr) (prev :: others) →
      (others.foldl (validateStep day rr) (prev :: accRest, ws)).1 =
        others.reverse ++ prev :: accRest
  | [], accRest, prev, ws, _ => by simp
  | cur :: more, accRest, prev, ws, hch => by
    obtain ⟨hlink, hch'⟩ := List.chain'_cons.mp hch
    have hstep : (validateStep day rr (prev :: accRest, ws) cur).1 =
        cur :: prev :: accRest ∧
        (validateStep day rr (prev :: accRest, ws) cur).2 =
          (validateStep day rr (prev :: accRest, ws) cur).2 := by
      constructor
      · simp only [validateStep]
        rcases hlink with hlink | ⟨hlt, hcov⟩
        · have h0 : timeToMinutes cur.startTime - timeToMinutes prev.endTime = 0 := by
            have : ek prev = sk cur := hlink
            simp only [ek, sk] at this
            omega
          rw [if_neg (by omega), if_neg (by omega)]
        · have hgt : timeToMinutes cur.startTime - timeToMinutes prev.endTime > 0 := by
            have : ek prev < sk cur := hlt
            simp only [ek, sk] at this
            omega
          simp only [ek, sk] at hcov
          rw [if_neg (by omega), if_pos hgt, if_pos hcov]
      · rfl
    rw [List.foldl_cons]
    set r := validateStep day rr (prev :: accRest, ws) cur with hr
    have hre : r = (cur :: prev :: accRest, r.2) := Prod.ext hstep.1 rfl
    rw [hre]
    rw [validateDay_fixpoint_fold day rr more (prev :: accRest) cur r.2 hch']
    simp

/-- validateDay leaves an already-linked day unchanged (up to warnings). -/
theorem validateDay_fixpoint (day : String) (rr : List TimeRange)
    (l : List TimeBlock) (hch : List.Chain' (linkOk rr) l) :
    (validateDay day l rr).1 = l := by
  match l with
  | [] => rfl
  | first :: others =>
    simp only [validateDay]
    rw [validateDay_fixpoint_fold day rr others [] first [] hch]
    simp

/-- The (blocks, warnings) contribution of a single weekday to validate. -/
def chunkP (x : ExtractedData) (day : String) :
    List TimeBlock × List ValidationWarning :=
  validateDay day (sortBlocks (x.blocks.filter (fun b => b.day = day))) (rrOf x)

theorem validateDayStep_eq (x : ExtractedData)
    (acc : List TimeBlock × List ValidationWarning) (day : String) :
    validateDayStep x acc day = (acc.1 ++ (chunkP x day).1, acc.2 ++ (chunkP x day).2) := by
  simp only [validateDayStep, chunkP]
  by_cases h : (sortBlocks (x.blocks.filter (fun b => b.day = day))).length = 0
  · have hnil : sortBlocks (x.blocks.filter (fun b => b.day = day)) = [] :=
      List.length_eq_zero.mp h
    rw [if_pos h, hnil]
    simp [validateDay]
  · rw [if_neg h]

theorem foldl_chunks (x : ExtractedData) :
    ∀ (days : List String) (a : List TimeBlock) (w : List ValidationWarning),
      days.foldl (validateDayStep x) (a, w) =
        (a ++ (days.map (fun d => (chunkP x d).1)).flatten,
         w ++ (days.map (fun d => (chunkP x d).2)).flatten)
  | [], a, w => by simp
  | d :: rest, a, w => by
    rw [List.foldl_cons, validateDayStep_eq, foldl_chunks x rest]
    simp

theorem validate_blocks_eq (x : ExtractedData) :
    (validate x).data.blocks = (DAYS.map (fun d => (chunkP x d).1)).flatten := by
  simp only [validate]
  rw [foldl_chunks x DAYS [] []]
  simp

theorem validate_warnings_eq (x : ExtractedData) :
    (validate x).warnings = (DAYS.map (fun d => (chunkP x d).2)).flatten := by
  simp only [validate]
  rw [foldl_chunks x DAYS [] []]
  simp

theorem validate_metadata_eq (x : ExtractedData) :
    (validate x).data.metadata = x.metadata := rfl

theorem validate_recurring_eq (x : ExtractedData) :
    (validate x).data.recurringBlocks = x.recurringBlocks := rfl

/-- All blocks of a weekday's chunk carry that day. -/
theorem chunkP_day_pure (x : ExtractedData) (d : String) :
    ∀ b ∈ (chunkP x d).1, b.day = d := by
  refine validateDay_day d (rrOf x) _ ?_
  intro b hb
  have hb' := (List.mem_insertionSort blockLE).mp hb
  exact of_decide_eq_true (List.mem_filter.mp hb').2

/-- Filtering a multi-day validated result by one day returns exactly that
day's chunk. -/
theorem flatten_filter_day (x : ExtractedData) :
    ∀ (days : List String), days.Nodup → ∀ day : String,
      ((days.map (fun d => (chunkP x d).1)).flatten).filter (fun b => b.day = day) =
        if day ∈ days then (chunkP x day).1 else []
  | [], _, day => by simp
  | d :: rest, hnd, day => by
    have hnd' : rest.Nodup := (List.nodup_cons.mp hnd).2
    have hdrest : d ∉ rest := (List.nodup_cons.mp hnd).1
    rw [List.map_cons, List.flatten_cons, List.filter_append,
      flatten_filter_day x rest hnd' day]
    by_cases hday : day = d
    · subst hday
      have h1 : (chunkP x day).1.filter (fun b => b.day = day) = (chunkP x day).1 :=
        List.filter_eq_self.mpr (fun b hb => decide_eq_true (chunkP_day_pure x day b hb))
      rw [h1, if_neg hdrest, if_pos (List.mem_cons_self _ _)]
      simp
    · have h1 : (chunkP x d).1.filter (fun b => b.day = day) = [] :=
        List.filter_eq_nil_iff.mpr (fun b hb => by
          simp only [decide_eq_true_eq]
          rw [chunkP_day_pure x d b hb]
          exact fun h => hday h.symm)
      rw [h1]
      simp only [List.nil_append]
      by_cases hmem : day ∈ rest
      · rw [if_pos hmem, if_pos (List.mem_cons_of_mem _ hmem)]
      · rw [if_neg hmem, if_neg (by
          intro hc
          rcases List.mem_cons.mp hc with hc | hc
          · exact hday hc
          · exact hmem hc)]

theorem DAYS_nodup : DAYS.Nodup := by decide

/-- Every block validate outputs belongs to one of the five weekdays. -/
theorem validate_day_mem (x : ExtractedData) :
    ∀ b ∈ (validate x).data.blocks, b.day ∈ DAYS := by
  intro b hb
  rw [validate_blocks_eq] at hb
  obtain ⟨l, hl, hbl⟩ := List.mem_flatten.mp hb
  obtain ⟨d, hd, rfl⟩ := List.mem_map.mp hl
  rw [chunkP_day_pure x d b hbl]
  exact hd

/-- Shorthand for building a concrete block in test data. -/
def mkBlock (d : String) (sh sm eh em : Nat) (n : String) : TimeBlock :=
  { day := d, startTime := ⟨sh, sm⟩, endTime := ⟨eh, em⟩, eventName := n }

/-- Two Monday blocks sharing a start time (both with start < end). -/
def tieBlocksData : ExtractedData :=
  { blocks := [mkBlock "Monday" 9 0 10 0 "Maths", mkBlock "Monday" 9 0 9 30 "Phonics"] }

/-- A Monday gap exactly covered by a recurring break. -/
def coveredGapData : ExtractedData :=
  { blocks := [mkBlock "Monday" 9 0 10 0 "Maths", mkBlock "Monday" 10 30 11 0 "English"]
    recurringBlocks := some
      [{ startTime := ⟨10, 0⟩, endTime := ⟨10, 30⟩, eventName := "Break", appliesDaily := true }] }

/-- A Monday block whose start is after its end, next to a normal block. -/
def invalidTimesData : ExtractedData :=
  { blocks := [mkBlock "Monday" 9 0 8 0 "Maths", mkBlock "Monday" 9 30 10 0 "English"] }

/-- The gap-repair scenario of the specification (S3). -/
def smallGapData : ExtractedData :=
  { blocks := [mkBlock "Monday" 9 0 9 30 "Maths", mkBlock "Monday" 9 33 10 0 "English"] }

/-- C1 (amended): if every input block has startTime < endTime then every
output block of the Timeline Validator has startTime ≤ endTime (equality is
reachable), and for every weekday the output blocks of that day are emitted
sorted by startTime with endTime[i] ≤ startTime[i+1] for adjacent pairs. -/
theorem validator_invariant_amended (x : ExtractedData)
    (hse : ∀ b ∈ x.blocks, sk b < ek b) :
    (∀ b ∈ (validate x).data.blocks, sk b ≤ ek b) ∧
    (∀ day : String,
      List.Chain' blockLE ((validate x).data.blocks.filter (fun b => b.day = day)) ∧
      List.Chain' (fun a b => ek a ≤ sk b)
        ((validate x).data.blocks.filter (fun b => b.day = day))) := by
  have hpre : ∀ d : String,
      (∀ b ∈ sortBlocks (x.blocks.filter (fun b => b.day = d)), sk b < ek b) ∧
      List.Sorted blockLE (sortBlocks (x.blocks.filter (fun b => b.day = d))) := by
    intro d
    constructor
    · intro b hb
      have hb' := (List.mem_insertionSort blockLE).mp hb
      exact hse b (List.mem_filter.mp hb').1
    · exact List.sorted_insertionSort blockLE _
  constructor
  · intro b hb
    rw [validate_blocks_eq] at hb
    obtain ⟨l, hl, hbl⟩ := List.mem_flatten.mp hb
    obtain ⟨d, _, rfl⟩ := List.mem_map.mp hl
    exact (validateDay_blocks_props d (rrOf x) _ (hpre d).1 (hpre d).2).1 b hbl
  · intro day
    rw [validate_blocks_eq, flatten_filter_day x DAYS DAYS_nodup day]
    by_cases hmem : day ∈ DAYS
    · rw [if_pos hmem]
      have props := validateDay_blocks_props day (rrOf x) _ (hpre day).1 (hpre day).2
      refine ⟨props.2.2, props.2.1.imp ?_⟩
      intro a b hab
      rcases hab with hab | hab
      · exact le_of_eq hab
      · exact le_of_lt hab.1
    · rw [if_neg hmem]
      simp

/-- C1 (counterexample): with two Monday blocks sharing a start time, each
with startTime < endTime, the validator trims the longer one to a
zero-length block, so the output violates startTime < endTime. -/
theorem validator_invariant_counterexample :
    (∀ b ∈ tieBlocksData.blocks, sk b < ek b) ∧
    ¬ (∀ b ∈ (validate tieBlocksData).data.blocks, sk b < ek b) := by decide

/-- Witness: the amended C1 theorem applied to the S3 gap-repair data. -/
theorem validator_invariant_witness :
    (∀ b ∈ smallGapData.blocks, sk b < ek b) ∧
    ((∀ b ∈ (validate smallGapData).data.blocks, sk b ≤ ek b) ∧
    (∀ day : String,
      List.Chain' blockLE ((validate smallGapData).data.blocks.filter (fun b => b.day = day)) ∧
      List.Chain' (fun a b => ek a ≤ sk b)
        ((validate smallGapData).data.blocks.filter (fun b => b.day = day)))) :=
  ⟨by decide, validator_invariant_amended smallGapData (by decide)⟩

/-- C3 (amended): on inputs whose blocks satisfy startTime < endTime, a
second run of the validator reproduces the blocks, metadata and recurring
blocks of the first run unchanged; only the warnings fields differ (covered
gaps are re-reported on every run). -/
theorem validate_idempotent_amended (x : ExtractedData)
    (hse : ∀ b ∈ x.blocks, sk b < ek b) :
    (validate (validate x).data).data.blocks = (validate x).data.blocks ∧
    (validate (validate x).data).data.metadata = (validate x).data.metadata ∧
    (validate (validate x).data).data.recurringBlocks =
      (validate x).data.recurringBlocks := by
  refine ⟨?_, rfl, rfl⟩
  have hrr : rrOf (validate x).data = rrOf x := rfl
  have hpre : ∀ d : String,
      (∀ b ∈ sortBlocks (x.blocks.filter (fun b => b.day = d)), sk b < ek b) ∧
      List.Sorted blockLE (sortBlocks (x.blocks.filter (fun b => b.day = d))) := by
    intro d
    constructor
    · intro b hb
      have hb' := (List.mem_insertionSort blockLE).mp hb
      exact hse b (List.mem_filter.mp hb').1
    · exact List.sorted_insertionSort blockLE _
  rw [validate_blocks_eq (validate x).data, validate_blocks_eq x]
  congr 1
  refine List.map_congr_left ?_
  intro d hd
  have props := validateDay_blocks_props d (rrOf x) _ (hpre d).1 (hpre d).2
  have hfil : (validate x).data.blocks.filter (fun b => b.day = d) = (chunkP x d).1 := by
    rw [validate_blocks_eq, flatten_filter_day x DAYS DAYS_nodup d, if_pos hd]
  have hsorted : List.Sorted blockLE (chunkP x d).1 :=
    List.chain'_iff_pairwise.mp props.2.2
  have hsort_eq : sortBlocks (chunkP x d).1 = (chunkP x d).1 :=
    List.Sorted.insertionSort_eq hsorted
  have hfix : (validateDay d (chunkP x d).1 (rrOf x)).1 = (chunkP x d).1 :=
    validateDay_fixpoint d (rrOf x) _ props.2.1
  show (validateDay d (sortBlocks ((validate x).data.blocks.filter
      (fun b => b.day = d))) (rrOf (validate x).data)).1 = (chunkP x d).1
  rw [hrr, hfil, hsort_eq, hfix]

/-- C3 (counterexample): full idempotence fails.  On the covered-gap data
the second run re-emits the covered-gap warning, so the results differ in
their warnings; and without the startTime < endTime precondition even the
blocks differ after a second run. -/
theorem validate_idempotent_counterexample :
    validate (validate coveredGapData).data ≠ validate coveredGapData ∧
    (validate (validate invalidTimesData).data).data.blocks ≠
      (validate invalidTimesData).data.blocks := by decide

/-- Witness: the amended C3 theorem applied to the covered-gap data. -/
theorem validate_idempotent_witness :
    (∀ b ∈ coveredGapData.blocks, sk b < ek b) ∧
    ((validate (validate coveredGapData).data).data.blocks =
        (validate coveredGapData).data.blocks ∧
    (validate (validate coveredGapData).data).data.metadata =
        (validate coveredGapData).data.metadata ∧
    (validate (validate coveredGapData).data).data.recurringBlocks =
        (validate coveredGapData).data.recurringBlocks) :=
  ⟨by decide, validate_idempotent_amended coveredGapData (by decide)⟩

/-- C9: blocks whose day is not one of Monday..Friday are silently
discarded: every output block has a valid weekday, and removing the
invalid-day blocks from the input changes nothing in the result (same
blocks, same warnings) -- so they are dropped without any warning. -/
theorem validate_invalid_day_blocks_dropped (x : ExtractedData) :
    (∀ b ∈ (validate x).data.blocks, b.day ∈ DAYS) ∧
    validate { x with blocks := x.blocks.filter (fun b => decide (b.day ∈ DAYS)) } =
      validate x := by
  refine ⟨validate_day_mem x, ?_⟩
  have hfil : ∀ d ∈ DAYS,
      (x.blocks.filter (fun b => decide (b.day ∈ DAYS))).filter (fun b => b.day = d) =
        x.blocks.filter (fun b => b.day = d) := by
    intro d hd
    rw [List.filter_filter]
    refine List.filter_congr ?_
    intro b _
    by_cases hbd : b.day = d
    · simp [hbd, hd]
    · simp [hbd]
  have hchunk : ∀ d ∈ DAYS,
      chunkP { x with blocks := x.blocks.filter (fun b => decide (b.day ∈ DAYS)) } d =
        chunkP x d := by
    intro d hd
    simp only [chunkP]
    rw [hfil d hd]
    simp only [rrOf]
  have h1 : DAYS.map (fun d =>
        (chunkP { x with blocks := x.blocks.filter (fun b => decide (b.day ∈ DAYS)) } d).1) =
      DAYS.map (fun d => (chunkP x d).1) :=
    List.map_congr_left (fun d hd => by rw [hchunk d hd])
  have h2 : DAYS.map (fun d =>
        (chunkP { x with blocks := x.blocks.filter (fun b => decide (b.day ∈ DAYS)) } d).2) =
      DAYS.map (fun d => (chunkP x d).2) :=
    List.map_congr_left (fun d hd => by rw [hchunk d hd])
  simp only [validate]
  rw [foldl_chunks _ DAYS [] [], foldl_chunks x DAYS [] []]
  rw [h1, h2]

/-- Nonempty intersection of the gap interval with some recurring window:
the specification's reading of the covered-gap condition. -/
def gapIntersectsRecurring (s e : Int) (rr : List TimeRange) : Prop :=
  ∃ r ∈ rr, s < r.stop ∧ r.start < e

instance (s e : Int) (rr : List TimeRange) :
    Decidable (gapIntersectsRecurring s e rr) := by
  unfold gapIntersectsRecurring
  infer_instance

/-- For non-degenerate recurring windows and a genuine gap (s < e) the
source's three-clause overlap test is exactly nonempty interval
intersection. -/
theorem overlapsRecurringBlock_iff (s e : Int) (rr : List TimeRange)
    (hwf : ∀ r ∈ rr, r.start < r.stop) (hse : s < e) :
    overlapsRecurringBlock s e rr = true ↔ gapIntersectsRecurring s e rr := by
  unfold overlapsRecurringBlock gapIntersectsRecurring
  rw [List.any_eq_true]
  constructor
  · rintro ⟨r, hr, hcond⟩
    refine ⟨r, hr, ?_⟩
    have hwfr := hwf r hr
    simp only [Bool.or_eq_true, Bool.and_eq_true, decide_eq_true_eq] at hcond
    omega
  · rintro ⟨r, hr, hint⟩
    refine ⟨r, hr, ?_⟩
    have hwfr := hwf r hr
    simp only [Bool.or_eq_true, Bool.and_eq_true, decide_eq_true_eq]
    omega

/-- C2: the case analysis of validateDay's walk over adjacent pairs
(prev, cur), with gap = cur.start - prev.end, assuming the recurring
windows are non-degenerate (start < end, the data-model invariant):
overlap trims prev and warns; a positive gap meeting a recurring window is
left untouched with a covered-gap warning; a positive gap of at most five
minutes not so covered extends prev; a larger uncovered gap gets a
synthetic block spanning exactly [prev.end, cur.start], named Transition
when gap < 10 and Free Period otherwise, with the auto-insertion note. -/
theorem validateDay_gap_cases (day : String) (rr : List TimeRange)
    (prev cur : TimeBlock) (rest : List TimeBlock) (ws : List ValidationWarning)
    (hwf : ∀ r ∈ rr, r.start < r.stop) :
    (sk cur - ek prev < 0 →
      validateStep day rr (prev :: rest, ws) cur =
        (cur :: { prev with endTime := cur.startTime } :: rest,
         ws ++ [overlapWarning day prev cur])) ∧
    (0 < sk cur - ek prev → gapIntersectsRecurring (ek prev) (sk cur) rr →
      validateStep day rr (prev :: rest, ws) cur =
        (cur :: prev :: rest,
         ws ++ [coveredGapWarning day (sk cur - ek prev) prev cur])) ∧
    (0 < sk cur - ek prev → sk cur - ek prev ≤ 5 →
      ¬ gapIntersectsRecurring (ek prev) (sk cur) rr →
      validateStep day rr (prev :: rest, ws) cur =
        (cur :: { prev with endTime := cur.startTime } :: rest,
         ws ++ [smallGapWarning day (sk cur - ek prev) prev cur])) ∧
    (5 < sk cur - ek prev → ¬ gapIntersectsRecurring (ek prev) (sk cur) rr →
      validateStep day rr (prev :: rest, ws) cur =
        (cur :: transitionBlock day (sk cur - ek prev) prev cur :: prev :: rest,
         ws ++ [gapFilledWarning day (sk cur - ek prev) prev cur]) ∧
      (transitionBlock day (sk cur - ek prev) prev cur).startTime = prev.endTime ∧
      (transitionBlock day (sk cur - ek prev) prev cur).endTime = cur.startTime ∧
      (transitionBlock day (sk cur - ek prev) prev cur).eventName =
        (if sk cur - ek prev < 10 then "Transition" else "Free Period") ∧
      (transitionBlock day (sk cur - ek prev) prev cur).notes =
        some ("Auto-inserted to fill " ++ toString (sk cur - ek prev) ++ "-minute gap")) := by
  have hskc : sk cur = timeToMinutes cur.startTime := rfl
  have hekp : ek prev = timeToMinutes prev.endTime := rfl
  refine ⟨?_, ?_, ?_, ?_⟩
  · intro hgap
    simp only [validateStep]
    rw [if_pos (by omega)]
  · intro hgap hcov
    have hcov' : overlapsRecurringBlock (ek prev) (sk cur) rr = true :=
      (overlapsRecurringBlock_iff _ _ rr hwf (by omega)).mpr hcov
    simp only [validateStep]
    rw [if_neg (by omega), if_pos (by omega)]
    rw [if_pos (by rw [← hskc, ← hekp]; exact hcov')]
    rw [hskc, hekp]
  · intro hgap hle hcov
    have hcov' : ¬ overlapsRecurringBlock (ek prev) (sk cur) rr = true := fun hc =>
      hcov ((overlapsRecurringBlock_iff _ _ rr hwf (by omega)).mp hc)
    simp only [validateStep]
    rw [if_neg (by omega), if_pos (by omega)]
    rw [if_neg (by rw [← hskc, ← hekp]; exact hcov'), if_pos (by omega)]
    rw [hskc, hekp]
  · intro hgap hcov
    have hcov' : ¬ overlapsRecurringBlock (ek prev) (sk cur) rr = true := fun hc =>
      hcov ((overlapsRecurringBlock_iff _ _ rr hwf (by omega)).mp hc)
    refine ⟨?_, rfl, rfl, ?_, rfl⟩
    · simp only [validateStep]
      rw [if_neg (by omega), if_pos (by omega)]
      rw [if_neg (by rw [← hskc, ← hekp]; exact hcov'), if_neg (by omega)]
      rw [hskc, hekp]
    · simp only [transitionBlock]
      by_cases h10 : sk cur - ek prev < 10
      · rw [if_neg (by omega), if_pos h10]
      · rw [if_pos (by omega), if_neg h10]

/-- Witness: the C2 case analysis applied to the S4 covered-gap scenario
(a 30-minute Monday gap under a recurring break) and, in the same setting,
to an uncovered larger gap. -/
theorem validateDay_gap_cases_witness :
    (∀ r ∈ [({ start := 600, stop := 630 } : TimeRange)], r.start < r.stop) ∧
    ((0 : Int) < sk (mkBlock "Monday" 10 30 11 0 "English") -
        ek (mkBlock "Monday" 9 0 10 0 "Maths") ∧
      gapIntersectsRecurring (ek (mkBlock "Monday" 9 0 10 0 "Maths"))
        (sk (mkBlock "Monday" 10 30 11 0 "English"))
        [({ start := 600, stop := 630 } : TimeRange)]) ∧
    validateStep "Monday" [({ start := 600, stop := 630 } : TimeRange)]
        ([mkBlock "Monday" 9 0 10 0 "Maths"], []) (mkBlock "Monday" 10 30 11 0 "English") =
      (mkBlock "Monday" 10 30 11 0 "English" :: mkBlock "Monday" 9 0 10 0 "Maths" :: [],
       [] ++ [coveredGapWarning "Monday"
          (sk (mkBlock "Monday" 10 30 11 0 "English") - ek (mkBlock "Monday" 9 0 10 0 "Maths"))
          (mkBlock "Monday" 9 0 10 0 "Maths") (mkBlock "Monday" 10 30 11 0 "English")]) :=
  ⟨by decide, ⟨by decide, by decide⟩,
    (validateDay_gap_cases "Monday" [({ start := 600, stop := 630 } : TimeRange)]
      (mkBlock "Monday" 9 0 10 0 "Maths") (mkBlock "Monday" 10 30 11 0 "English") [] []
      (by decide)).2.1 (by decide) (by decide)⟩

/-! ### File preprocessor artifact and the Complexity Analyzer -/

/-- Raw bytes of a Node Buffer. -/
abbrev ByteBuf := List Nat

/-- ProcessedFile: the preprocessed artifact (fileProcessor.ts). -/
structure ProcessedFile where
  text : Option (List Char) := none
  imageBuffer : Option ByteBuf := none
  mimeType : List Char
  originalName : String := ""
deriving DecidableEq, Repr

/-- JavaScript truthiness of the text field: present and non-empty. -/
def textTruthy (pf : ProcessedFile) : Option (List Char) :=
  pf.text.bind (fun t => if t = [] then none else some t)

/-- The regex word-character class \w (ASCII letters, digits, underscore). -/
def isWordChar (c : Char) : Bool := c.isAlpha || c.isDigit || c = '_'

/-- The regex whitespace class \s (the common ASCII whitespace). -/
def isSpaceChar (c : Char) : Bool :=
  c = ' ' || c = '\t' || c = '\n' || c = '\r' || c = '\x0b' || c = '\x0c'

/-- Maximal runs of word characters of a text (the regex word tokens). -/
def wordRunsAux : List Char → List Char → List (List Char)
  | [], cur => if cur.isEmpty then [] else [cur.reverse]
  | c :: rest, cur =>
    if isWordChar c then wordRunsAux rest (c :: cur)
    else if cur.isEmpty then wordRunsAux rest []
    else cur.reverse :: wordRunsAux rest []

def wordRuns (t : List Char) : List (List Char) := wordRunsAux t []

/-- Number of maximal whitespace runs. -/
def spaceRunsAux : List Char → Bool → Nat
  | [], _ => 0
  | c :: rest, inRun =>
    if isSpaceChar c then (if inRun then 0 else 1) + spaceRunsAux rest true
    else spaceRunsAux rest false

/-- Length of text.split(/\s+/): one part per whitespace-run separator,
plus one. -/
def splitWhitespaceCount (t : List Char) : Nat := spaceRunsAux t false + 1

/-- Number of matches of /[^\w\s]/g. -/
def punctuationCount (t : List Char) : Nat :=
  t.countP (fun c => !(isWordChar c) && !(isSpaceChar c))

/-- Number of matches of the single-character word regex. -/
def singleCharCount (t : List Char) : Nat :=
  (wordRuns t).countP (fun w => w.length == 1)

/-- The words matched by the three-letters-or-more word regex. -/
def longWords (t : List Char) : List (List Char) :=
  (wordRuns t).filter (fun w => decide (3 ≤ w.length))

def isVowel (c : Char) : Bool :=
  c = 'a' || c = 'e' || c = 'i' || c = 'o' || c = 'u' ||
  c = 'A' || c = 'E' || c = 'I' || c = 'O' || c = 'U'

def noVowelWordCount (t : List Char) : Nat :=
  (longWords t).countP (fun w => !(w.any isVowel))

/-- Floor of the base-2 logarithm, by fuel (fuel >= n suffices). -/
def log2f : Nat → Nat → Nat
  | 0, _ => 0
  | fuel + 1, n => if n ≤ 1 then 0 else log2f fuel (n / 2) + 1

def natLog2 (n : Nat) : Nat := log2f n n

/-- Round the fraction a / b (b nonzero) to the nearest IEEE-754
double-precision value, as an exact rational: 53 significant bits,
round-to-nearest, ties to even.  The double exponent range is not modeled
(every value the analyzer computes is far inside the normal range), and
b = 0 yields 0 (division by zero is handled separately by its callers).
This is the value semantics of JavaScript number arithmetic: each
arithmetic result is the exact rational result rounded by this function,
and comparisons of doubles are exact comparisons of their rationals. -/
def roundToDoubleFrac (a : Int) (b : Nat) : Rat :=
  if b = 0 then 0
  else if a = 0 then 0
  else
    let na := a.natAbs
    let la := natLog2 na
    let lb := natLog2 b
    let eTop : Bool := decide (b * 2 ^ la ≤ na * 2 ^ lb)
    let e : Int := if eTop then (la : Int) - (lb : Int) else (la : Int) - (lb : Int) - 1
    let k : Int := 52 - e
    let sn : Nat := if 0 ≤ k then na * 2 ^ k.toNat else na
    let sd : Nat := if 0 ≤ k then b else b * 2 ^ (-k).toNat
    let n0 := sn / sd
    let r := sn % sd
    let n : Nat :=
      if sd < 2 * r then n0 + 1
      else if 2 * r < sd then n0
      else if n0 % 2 = 0 then n0 else n0 + 1
    let sign : Int := if a < 0 then -1 else 1
    if 0 ≤ k then mkRat (sign * (n : Int)) (2 ^ k.toNat)
    else mkRat (sign * (n : Int) * 2 ^ (-k).toNat) 1

/-- The IEEE double a decimal literal n/d denotes (e.g. dbl 3 10 is the
double written 0.3, which is slightly below 3/10). -/
def dbl (n d : Nat) : Rat := roundToDoubleFrac (n : Int) d

/-- IEEE-double addition: exact rational sum, then rounding. -/
def fpAdd (x y : Rat) : Rat :=
  roundToDoubleFrac (x.num * (y.den : Int) + y.num * (x.den : Int)) (x.den * y.den)

/-- IEEE-double subtraction: exact rational difference, then rounding. -/
def fpSub (x y : Rat) : Rat :=
  roundToDoubleFrac (x.num * (y.den : Int) - y.num * (x.den : Int)) (x.den * y.den)

/-- A JavaScript num/den > q comparison for nonnegative numerators and a
positive double threshold q: the quotient is rounded to a double and
compared exactly; division by zero yields NaN (num = 0, compares false)
or +Infinity (num > 0, compares true). -/
def jsRatioGT (num den : Nat) (q : Rat) : Bool :=
  if den = 0 then num != 0 else decide (q < roundToDoubleFrac (num : Int) den)

/-- JavaScript Math.min for two numbers. -/
def jsMin (a b : Rat) : Rat := if a ≤ b then a else b

/-- JavaScript Math.max for two numbers. -/
def jsMax (a b : Rat) : Rat := if a ≤ b then b else a

/-- ComplexityAnalyzer.estimateOCRConfidence (given truthy text). -/
def estimateOCRConfidence (t : List Char) : Rat :=
  let errorIndicators : Nat :=
    (if jsRatioGT (punctuationCount t) t.length (dbl 2 10) then 10 else 0)
    + (if jsRatioGT (singleCharCount t) (splitWhitespaceCount t) (dbl 3 10) then 10 else 0)
    + (if jsRatioGT (noVowelWordCount t) (longWords t).length (dbl 2 10) then 10 else 0)
  jsMax 0 (fpSub 1 (dbl errorIndicators 30))

/-- ComplexityAnalyzer.isScannedPDF. -/
def isScannedPDF (pf : ProcessedFile) : Bool :=
  decide ((pf.text.getD []).length < 100)

/-- ComplexityAnalyzer.analyzeImageQuality (a stub constant in the source). -/
def analyzeImageQuality (_ : ByteBuf) : Rat := dbl 7 10

/-- The /[a-z][A-Z]/ test: some lowercase letter immediately followed by
an uppercase letter. -/
def hasLowerUpperPair : List Char → Bool
  | c1 :: c2 :: rest => (c1.isLower && c2.isUpper) || hasLowerUpperPair (c2 :: rest)
  | _ => false

/-- The /[Il1O0]/ test: common OCR-confusion glyphs. -/
def isOCRConfusionChar (c : Char) : Bool :=
  c = 'I' || c = 'l' || c = '1' || c = 'O' || c = '0'

/-- ComplexityAnalyzer.detectHandwritingIndicators. -/
def detectHandwritingIndicators (t : List Char) : Bool :=
  hasLowerUpperPair t && t.any isOCRConfusionChar

/-- ComplexityAnalyzer.analyzeLayoutComplexity. -/
def analyzeLayoutComplexity (t : List Char) : Rat :=
  let lines : Nat := t.countP (fun c => c = '\n') + 1
  let avgLineLength : Rat := roundToDoubleFrac (t.length : Int) lines
  if avgLineLength < 20 then dbl 8 10
  else if avgLineLength < 40 then dbl 5 10
  else dbl 3 10

/-- The factors record of ComplexityAnalyzer.analyze. -/
structure ComplexityFactors where
  hasLowOCRConfidence : Bool := false
  hasHandwriting : Bool := false
  hasComplexLayout : Bool := false
  hasColorCoding : Bool := false
  hasMergedCells : Bool := false
  hasVerticalText : Bool := false
  isLowQuality : Bool := false
deriving DecidableEq, Repr

/-- ComplexityAnalyzer.calculateComplexityScore: starting from 0, add the
weight of each active factor in object-entry order with IEEE-double
addition (score += weights[factor]), then cap with Math.min(1, score).
The weights are the doubles the decimal literals 0.25, 0.3, 0.15, 0.1,
0.1, 0.05, 0.05 denote; because 0.3, 0.15 and 0.05 are not exactly
representable, the left-to-right double sum of the four settable weights
rounds to one ulp ABOVE 3/4. -/
def calculateComplexityScore (f : ComplexityFactors) : Rat :=
  let s := (0 : Rat)
  let s := if f.hasLowOCRConfidence then fpAdd s (dbl 25 100) else s
  let s := if f.hasHandwriting then fpAdd s (dbl 3 10) else s
  let s := if f.hasComplexLayout then fpAdd s (dbl 15 100) else s
  let s := if f.hasColorCoding then fpAdd s (dbl 1 10) else s
  let s := if f.hasMergedCells then fpAdd s (dbl 1 10) else s
  let s := if f.hasVerticalText then fpAdd s (dbl 5 100) else s
  let s := if f.isLowQuality then fpAdd s (dbl 5 100) else s
  jsMin 1 s

inductive ComplexityLevel where
  | simple
  | medium
  | complex
deriving DecidableEq, Repr

inductive RecommendedMethod where
  | document_ai
  | claude
  | hybrid
deriving DecidableEq, Repr

structure ComplexityAnalysis where
  level : ComplexityLevel
  score : Rat
  reasons : List String
  recommendedMethod : RecommendedMethod
deriving DecidableEq, Repr

/-- ComplexityAnalyzer.recommendMethod. -/
def recommendMethod (level : ComplexityLevel) (f : ComplexityFactors) :
    RecommendedMethod :=
  if level = ComplexityLevel.simple then RecommendedMethod.document_ai
  else if level = ComplexityLevel.complex ∨ f.hasHandwriting = true then
    RecommendedMethod.claude
  else RecommendedMethod.hybrid

/-- The factor and reason computation of ComplexityAnalyzer.analyze. -/
def analyzerFactors (pf : ProcessedFile) : ComplexityFactors × List String :=
  let f1 : Bool := match textTruthy pf with
    | some t => decide (estimateOCRConfidence t < dbl 7 10)
    | none => false
  let isPdf : Bool := decide ("pdf".toList <:+: pf.mimeType)
  let f2 : Bool := isPdf && isScannedPDF pf
  let f3 : Bool := match pf.imageBuffer with
    | some buf => ("image/".toList).isPrefixOf pf.mimeType &&
        decide (analyzeImageQuality buf < dbl 6 10)
    | none => false
  let f4 : Bool := match textTruthy pf with
    | some t => detectHandwritingIndicators t
    | none => false
  let f5 : Bool := match textTruthy pf with
    | some t => decide (analyzeLayoutComplexity t > dbl 7 10)
    | none => false
  ({ hasLowOCRConfidence := f1
     hasHandwriting := f4
     hasComplexLayout := f5
     isLowQuality := f2 || f3 },
   (if f1 then ["Low OCR confidence detected"] else [])
     ++ (if f2 then ["Scanned PDF detected"] else [])
     ++ (if f3 then ["Low image quality"] else [])
     ++ (if f4 then ["Possible handwritten content"] else [])
     ++ (if f5 then ["Complex table layout"] else []))

/-- ComplexityAnalyzer.analyze. -/
def analyze (pf : ProcessedFile) : ComplexityAnalysis :=
  let fr := analyzerFactors pf
  let score := calculateComplexityScore fr.1
  let level : ComplexityLevel :=
    if score < dbl 3 10 then ComplexityLevel.simple
    else if score < dbl 6 10 then ComplexityLevel.medium
    else ComplexityLevel.complex
  { level := level
    score := score
    reasons := fr.2
    recommendedMethod := recommendMethod level fr.1 }

/-- The largest score the analyzer can produce: the IEEE-double sum of
the four settable weights, 6755399441055745 / 2^53, which is exactly one
ulp above 3/4 (0.7500000000000001 in decimal display). -/
def maxDoubleScore : Rat := mkRat 6755399441055745 9007199254740992

/-- Score bound, handwriting necessity, and the exact condition for
exceeding 3/4, for the factor combinations the analyzer can actually
produce (the color/merged/vertical factors are never set by analyze):
sixteen concrete double computations. -/
theorem calculateComplexityScore_le (f : ComplexityFactors)
    (hc : f.hasColorCoding = false) (hm : f.hasMergedCells = false)
    (hv : f.hasVerticalText = false) :
    calculateComplexityScore f ≤ maxDoubleScore ∧
    (¬ calculateComplexityScore f < dbl 6 10 → f.hasHandwriting = true) ∧
    (mkRat 3 4 < calculateComplexityScore f →
      f.hasLowOCRConfidence = true ∧ f.hasHandwriting = true ∧
      f.hasComplexLayout = true ∧ f.isLowQuality = true) := by
  obtain ⟨b1, b2, b3, b4, b5, b6, b7⟩ := f
  simp only at hc hm hv
  subst hc hm hv
  rcases b1 <;> rcases b2 <;> rcases b3 <;> rcases b7 <;> decide

theorem textTruthy_eq_some (pf : ProcessedFile) (t : List Char)
    (h : textTruthy pf = some t) : pf.text = some t := by
  unfold textTruthy at h
  cases hx : pf.text with
  | none => rw [hx] at h; simp at h
  | some u =>
    rw [hx] at h
    simp only [Option.some_bind] at h
    split_ifs at h
    rw [h]

/-- C10 (amended): the complexity score never exceeds
6755399441055745/2^53 = 0.7500000000000001, the IEEE-double sum of the
four settable weights, which is one ulp ABOVE 3/4; it exceeds 3/4 only
when all four settable factors fired; and the complex level is reached
only when the handwriting factor fired -- i.e. only when the artifact has
text containing a lowercase letter immediately followed by an uppercase
one and at least one OCR-confusion glyph -- in which case the recommended
backend is the Claude vision backend.  (JavaScript number arithmetic is
modeled as exact rationals with IEEE-754 double rounding after every
operation.) -/
theorem analyze_complexity_bounds (pf : ProcessedFile) :
    (analyze pf).score ≤ maxDoubleScore ∧
    ((analyze pf).level = ComplexityLevel.complex →
      (∃ t, pf.text = some t ∧ hasLowerUpperPair t = true ∧
        t.any isOCRConfusionChar = true) ∧
      (analyze pf).recommendedMethod = RecommendedMethod.claude) ∧
    (mkRat 3 4 < (analyze pf).score →
      (analyzerFactors pf).1.hasLowOCRConfidence = true ∧
      (analyzerFactors pf).1.hasHandwriting = true ∧
      (analyzerFactors pf).1.hasComplexLayout = true ∧
      (analyzerFactors pf).1.isLowQuality = true) := by
  have hkey := calculateComplexityScore_le (analyzerFactors pf).1 rfl rfl rfl
  refine ⟨hkey.1, ?_, hkey.2.2⟩
  intro hlev0
  have hlev := hlev0
  simp only [analyze] at hlev
  have h06 : ¬ calculateComplexityScore (analyzerFactors pf).1 < dbl 6 10 := by
    intro hlt
    by_cases h03 : calculateComplexityScore (analyzerFactors pf).1 < dbl 3 10
    · rw [if_pos h03] at hlev
      exact absurd hlev (by simp)
    · rw [if_neg h03, if_pos hlt] at hlev
      exact absurd hlev (by simp)
  have hhand : (analyzerFactors pf).1.hasHandwriting = true := hkey.2.1 h06
  constructor
  · have hmatch : (match textTruthy pf with
        | some t => detectHandwritingIndicators t
        | none => false) = true := hhand
    match htt : textTruthy pf with
    | none => rw [htt] at hmatch; exact absurd hmatch (by simp)
    | some t =>
      rw [htt] at hmatch
      have hdet := hmatch
      unfold detectHandwritingIndicators at hdet
      rw [Bool.and_eq_true] at hdet
      exact ⟨t, textTruthy_eq_some pf t htt, hdet.1, hdet.2⟩
  · have hrm : (analyze pf).recommendedMethod =
        recommendMethod (analyze pf).level (analyzerFactors pf).1 := rfl
    rw [hrm, hlev0]
    unfold recommendMethod
    rw [if_neg (by simp), if_pos (Or.inl rfl)]

/-! ### ClaudeService.parseClaudeResponse (vision backend response parsing) -/

/-- The suffix of a text starting at its first opening brace. -/
def fromFirstOpenBrace : List Char → Option (List Char)
  | [] => none
  | c :: rest => if c = '{' then some (c :: rest) else fromFirstOpenBrace rest

/-- Truncate a text right after its last closing brace (none if it has no
closing brace). -/
def keepThroughLastCloseBrace (u : List Char) : Option (List Char) :=
  let r := u.reverse.dropWhile (fun c => !(c = '}'))
  if r.isEmpty then none else some r.reverse

/-- The region the source's regex match against /\x7b[\s\S]*\x7d/ extracts:
from the first opening brace through the last closing brace of the whole
response (the quantifier is greedy), or no match. -/
def claudeJsonRegion (s : List Char) : Option (List Char) :=
  (fromFirstOpenBrace s).bind keepThroughLastCloseBrace

/-- Modelled from the spec: the first balanced brace region of the
response, i.e. from the first opening brace up to the matching closing
brace (counting brace depth).  This is the specification's description of
the extraction, written for comparison with claudeJsonRegion, which is
what the source implements. -/
def firstBalancedRegionAux : List Char → Nat → List Char → Option (List Char)
  | [], _, _ => none
  | c :: rest, depth, acc =>
    if c = '{' then firstBalancedRegionAux rest (depth + 1) (c :: acc)
    else if c = '}' then
      if depth = 1 then some ((c :: acc).reverse)
      else firstBalancedRegionAux rest (depth - 1) (c :: acc)
    else firstBalancedRegionAux rest depth (c :: acc)

def firstBalancedRegion (s : List Char) : Option (List Char) :=
  (fromFirstOpenBrace s).bind (fun u => firstBalancedRegionAux u 0 [])

/-- The metadata hint a caller passes alongside the artifact. -/
structure MetadataHint where
  teacherName : Option String := none
  className : Option String := none
deriving DecidableEq, Repr

/-- The metadata merge of parseClaudeResponse: spread the parsed metadata,
then spread the hint fields, each only when truthy (present, non-empty). -/
def mergeClaudeMetadata (parsed : TimetableMetadata) (provided : Option MetadataHint) :
    TimetableMetadata :=
  { parsed with
    teacherName :=
      match provided.bind (fun m => m.teacherName) with
      | some t => if t = "" then parsed.teacherName else some t
      | none => parsed.teacherName
    className :=
      match provided.bind (fun m => m.className) with
      | some c => if c = "" then parsed.className else some c
      | none => parsed.className }

theorem dropWhile_eq_cons_head (p : Char → Bool) :
    ∀ (l : List Char) (d : Char) (ds : List Char),
      l.dropWhile p = d :: ds → p d = false
  | [], d, ds, h => by simp [List.dropWhile] at h
  | c :: rest, d, ds, h => by
    rw [List.dropWhile_cons] at h
    by_cases hc : p c = true
    · rw [if_pos hc] at h
      exact dropWhile_eq_cons_head p rest d ds h
    · rw [if_neg hc] at h
      injection h with h1 _
      rw [← h1]
      exact Bool.eq_false_iff.mpr hc

/-- C8 (counterexample): the source's extraction is not the first balanced
brace region.  On a response holding two JSON objects the regex spans from
the first opening brace to the LAST closing brace (so JSON.parse then
throws), while the first balanced region is just the first object. -/
theorem claude_parse_region_counterexample :
    claudeJsonRegion ("x\x7ba:1\x7d y\x7bb:2\x7dz".toList) =
        some ("\x7ba:1\x7d y\x7bb:2\x7d".toList) ∧
    firstBalancedRegion ("x\x7ba:1\x7d y\x7bb:2\x7dz".toList) = some ("\x7ba:1\x7d".toList) ∧
    claudeJsonRegion ("x\x7ba:1\x7d y\x7bb:2\x7dz".toList) ≠
        firstBalancedRegion ("x\x7ba:1\x7d y\x7bb:2\x7dz".toList) := by decide

/-- C8 (amended): the parser extracts the region of the response running
from the first opening brace through the last closing brace (the greedy
regex match), and the caller-provided hint fields override model-inferred
metadata whenever they are present (and non-empty, the truthiness test the
spread performs). -/
theorem claude_parse_region_amended :
    (∀ s u : List Char, claudeJsonRegion s = some u →
      ∃ pre post, s = pre ++ u ++ post ∧
        (∀ c ∈ pre, c ≠ '{') ∧ (∀ c ∈ post, c ≠ '}') ∧
        u.head? = some '{' ∧ u.getLast? = some '}') ∧
    (∀ (parsed : TimetableMetadata) (hint : MetadataHint)
        (tn cn : String), tn ≠ "" → cn ≠ "" →
      (mergeClaudeMetadata parsed
          (some { hint with teacherName := some tn })).teacherName = some tn ∧
      (mergeClaudeMetadata parsed
          (some { hint with className := some cn })).className = some cn ∧
      (mergeClaudeMetadata parsed (some { hint with teacherName := none })).teacherName =
        parsed.teacherName ∧
      (mergeClaudeMetadata parsed none).teacherName = parsed.teacherName ∧
      (mergeClaudeMetadata parsed none).className = parsed.className ∧
      (mergeClaudeMetadata parsed none).term = parsed.term ∧
      (mergeClaudeMetadata parsed none).week = parsed.week) := by
  constructor
  · intro s u hsu
    unfold claudeJsonRegion at hsu
    obtain ⟨v, hv, hkeep⟩ : ∃ v, fromFirstOpenBrace s = some v ∧
        keepThroughLastCloseBrace v = some u := by
      cases hfb : fromFirstOpenBrace s with
      | none => rw [hfb] at hsu; simp at hsu
      | some v => rw [hfb] at hsu; exact ⟨v, rfl, hsu⟩
    -- decompose the prefix before the first brace
    obtain ⟨pre, hpre, hprenb, hvhead⟩ :
        ∃ pre, s = pre ++ v ∧ (∀ c ∈ pre, c ≠ '{') ∧ v.head? = some '{' := by
      clear hsu hkeep
      induction s with
      | nil => simp [fromFirstOpenBrace] at hv
      | cons c rest ih =>
        by_cases hc : c = '{'
        · refine ⟨[], ?_, by simp, ?_⟩
          · unfold fromFirstOpenBrace at hv
            rw [if_pos hc] at hv
            simp only [Option.some.injEq] at hv
            rw [← hv]
            simp
          · unfold fromFirstOpenBrace at hv
            rw [if_pos hc] at hv
            simp only [Option.some.injEq] at hv
            rw [← hv, List.head?_cons, hc]
        · unfold fromFirstOpenBrace at hv
          rw [if_neg hc] at hv
          obtain ⟨pre, h1, h2, h3⟩ := ih hv
          refine ⟨c :: pre, by rw [List.cons_append, h1], ?_, h3⟩
          intro d hd
          rcases List.mem_cons.mp hd with rfl | hd
          · exact hc
          · exact h2 d hd
    -- decompose the suffix after the last closing brace
    obtain ⟨post, hpost, hpostnb, hulast⟩ :
        ∃ post, v = u ++ post ∧ (∀ c ∈ post, c ≠ '}') ∧ u.getLast? = some '}' := by
      unfold keepThroughLastCloseBrace at hkeep
      by_cases hr : (v.reverse.dropWhile (fun c => !(c = '}'))).isEmpty
      · rw [if_pos hr] at hkeep; simp at hkeep
      · rw [if_neg hr] at hkeep
        simp only [Option.some.injEq] at hkeep
        refine ⟨(v.reverse.takeWhile (fun c => !(c = '}'))).reverse, ?_, ?_, ?_⟩
        · rw [← hkeep]
          have := List.takeWhile_append_dropWhile
            (p := fun c => !(c = '}')) (l := v.reverse)
          calc v = v.reverse.reverse := by rw [List.reverse_reverse]
            _ = ((v.reverse.takeWhile (fun c => !(c = '}'))) ++
                  (v.reverse.dropWhile (fun c => !(c = '}')))).reverse := by rw [this]
            _ = (v.reverse.dropWhile (fun c => !(c = '}'))).reverse ++
                  (v.reverse.takeWhile (fun c => !(c = '}'))).reverse := by
                  rw [List.reverse_append]
        · intro c hc
          have hc' := List.mem_reverse.mp hc
          have := List.mem_takeWhile_imp hc'
          simpa using this
        · rw [← hkeep]
          rw [List.getLast?_reverse]
          cases hd : v.reverse.dropWhile (fun c => !(c = '}')) with
          | nil => rw [hd] at hr; simp at hr
          | cons d ds =>
            rw [List.head?_cons]
            have hpd := dropWhile_eq_cons_head (fun c => !(c = '}')) v.reverse d ds hd
            have hdd : d = '}' := by simpa using hpd
            rw [hdd]
    refine ⟨pre, post, by rw [hpre, hpost, List.append_assoc], hprenb, hpostnb, ?_, hulast⟩
    cases u with
    | nil => simp at hulast
    | cons a as =>
      rw [hpost] at hvhead
      simpa using hvhead
  · intro parsed hint tn cn htn hcn
    refine ⟨?_, ?_, rfl, rfl, rfl, rfl, rfl⟩
    · simp only [mergeClaudeMetadata, Option.some_bind]
      rw [if_neg htn]
    · simp only [mergeClaudeMetadata, Option.some_bind]
      rw [if_neg hcn]

/-- Witness: the amended C8 theorem applied to a concrete response and a
concrete hint. -/
theorem claude_parse_region_amended_witness :
    (∃ pre post, "x\x7ba:1\x7d y\x7bb:2\x7dz".toList = pre ++ "\x7ba:1\x7d y\x7bb:2\x7d".toList ++ post ∧
      (∀ c ∈ pre, c ≠ '{') ∧ (∀ c ∈ post, c ≠ '}') ∧
      ("\x7ba:1\x7d y\x7bb:2\x7d".toList).head? = some '{' ∧
      ("\x7ba:1\x7d y\x7bb:2\x7d".toList).getLast? = some '}') ∧
    (mergeClaudeMetadata { term := some "Spring 2" }
        (some { teacherName := some "Miss Joynes" })).teacherName = some "Miss Joynes" :=
  ⟨claude_parse_region_amended.1 ("x\x7ba:1\x7d y\x7bb:2\x7dz".toList) ("\x7ba:1\x7d y\x7bb:2\x7d".toList)
      (by decide),
   (claude_parse_region_amended.2 { term := some "Spring 2" }
      { teacherName := some "Miss Joynes" } "Miss Joynes" "x"
      (by decide) (by decide)).1⟩

/-! ### ExtractionOrchestrator.extract -/

deriving instance DecidableEq for Except

/-- The feature flags and backend oracles one orchestrator run sees.  Each
await of an external service call is an oracle: the value the promise
resolves to or the message it rejects with. -/
structure OrchestratorEnv where
  useDocumentAI : Bool
  hasDocAICredentials : Bool
  useClaudeFallback : Bool
  useHybrid : Bool
  claudeExtract : Except String ExtractedData
  docAIExtract : Except String ExtractedData
  claudeValidateCall : ExtractedData → Except String ExtractedData

/-- The constructor guard: documentAI is instantiated only when the flag
and the credentials are both present. -/
def documentAIAvailable (env : OrchestratorEnv) : Bool :=
  env.useDocumentAI && env.hasDocAICredentials

/-- ExtractionResult.  Wall-clock elapsed time is modeled as zero. -/
structure ExtractionResult where
  data : ExtractedData
  method : String
  complexity : ComplexityAnalysis
  processingTime : Nat := 0
deriving DecidableEq, Repr

/-- ClaudeService.validateExtraction never rejects: a failed validation
call logs and returns the Document AI data unchanged. -/
def claudeValidateExtraction (env : OrchestratorEnv) (docAIData : ExtractedData) :
    ExtractedData :=
  match env.claudeValidateCall docAIData with
  | .ok v => v
  | .error _ => docAIData

/-- Step 2 of ExtractionOrchestrator.extract: route to a backend based on
complexity and feature flags, producing the raw extraction and method tag. -/
def primaryExtract (env : OrchestratorEnv) (complexity : ComplexityAnalysis) :
    Except String (ExtractedData × String) :=
  if !env.useDocumentAI then
    env.claudeExtract.map (fun d => (d, "claude"))
  else if complexity.recommendedMethod = RecommendedMethod.document_ai ∧
      documentAIAvailable env = true then
    env.docAIExtract.map (fun d => (d, "document_ai"))
  else if complexity.recommendedMethod = RecommendedMethod.claude then
    env.claudeExtract.map (fun d => (d, "claude"))
  else if complexity.recommendedMethod = RecommendedMethod.hybrid ∧
      env.useHybrid = true ∧ documentAIAvailable env = true then
    env.docAIExtract.map (fun d =>
      if env.useClaudeFallback then
        (claudeValidateExtraction env d, "hybrid_documentai_claude")
      else (d, "document_ai"))
  else
    env.claudeExtract.map (fun d => (d, "claude_fallback"))

/-- The hardcoded complexity record of the error-fallback return. -/
def errorFallbackComplexity : ComplexityAnalysis :=
  { level := ComplexityLevel.complex
    score := 1
    reasons := ["Primary extraction failed"]
    recommendedMethod := RecommendedMethod.claude }

/-- ExtractionOrchestrator.extract: analyze, route, validate; on a primary
failure with the claude fallback enabled, retry once with Claude and
return its raw result. -/
def orchestratorExtract (env : OrchestratorEnv) (pf : ProcessedFile) :
    Except String ExtractionResult :=
  let complexity := analyze pf
  match primaryExtract env complexity with
  | .ok (extractedData, method) =>
    .ok { data := (validate extractedData).data
          method := method
          complexity := complexity }
  | .error e =>
    if env.useClaudeFallback then
      match env.claudeExtract with
      | .ok d =>
        .ok { data := d
              method := "claude_error_fallback"
              complexity := errorFallbackComplexity }
      | .error _ => .error ("All extraction methods failed: " ++ e)
    else .error e

/-- A preprocessed artifact with no evidence at all: classified simple,
routed to Document AI. -/
def plainImagePf : ProcessedFile := { mimeType := "image/png".toList }

/-- A fallback extraction containing a Saturday block, which the Timeline
Validator would drop. -/
def saturdayData : ExtractedData :=
  { blocks := [mkBlock "Saturday" 9 0 10 0 "Maths"] }

/-- An environment whose Document AI path fails while the Claude fallback
succeeds. -/
def fallbackEnv : OrchestratorEnv :=
  { useDocumentAI := true
    hasDocAICredentials := true
    useClaudeFallback := true
    useHybrid := false
    claudeExtract := .ok saturdayData
    docAIExtract := .error "Document AI processor error"
    claudeValidateCall := fun _ => .error "unused" }

section
set_option allowUnsafeReducibility true
attribute [local semireducible] Rat.add Rat.ofScientific Rat.mul Rat.div Rat.inv Rat.sub

/-- C4 (counterexample): on the error-fallback path the orchestrator
returns the fallback extraction RAW -- the returned data is not the
Timeline Validator's output (here the validator would have dropped the
Saturday block), though method, complexity level and reason are as
claimed. -/
theorem orchestrator_fallback_counterexample :
    orchestratorExtract fallbackEnv plainImagePf =
      Except.ok { data := saturdayData
                  method := "claude_error_fallback"
                  complexity := errorFallbackComplexity } ∧
    saturdayData ≠ (validate saturdayData).data := by
  constructor
  · decide
  · decide

/-- C4 (amended): on a successful primary path the returned data is the
Timeline Validator applied to the chosen backend's raw extraction, with
that path's method tag; but on the error-fallback path (primary failed,
claude fallback enabled, retry succeeded) the returned data is the raw
fallback extraction, NOT passed through the validator, with method
claude_error_fallback and the hardcoded complex/Primary-extraction-failed
complexity; if the retry also fails every method has failed, and with the
fallback disabled the primary error propagates. -/
theorem orchestrator_extract_amended (env : OrchestratorEnv) (pf : ProcessedFile) :
    (∀ d m, primaryExtract env (analyze pf) = .ok (d, m) →
      orchestratorExtract env pf =
        .ok { data := (validate d).data, method := m, complexity := analyze pf }) ∧
    (∀ e d, primaryExtract env (analyze pf) = .error e →
      env.useClaudeFallback = true → env.claudeExtract = .ok d →
      orchestratorExtract env pf =
        .ok { data := d
              method := "claude_error_fallback"
              complexity := errorFallbackComplexity }) ∧
    (∀ e e2, primaryExtract env (analyze pf) = .error e →
      env.useClaudeFallback = true → env.claudeExtract = .error e2 →
      orchestratorExtract env pf = .error ("All extraction methods failed: " ++ e)) ∧
    (∀ e, primaryExtract env (analyze pf) = .error e →
      env.useClaudeFallback = false →
      orchestratorExtract env pf = .error e) := by
  refine ⟨?_, ?_, ?_, ?_⟩
  · intro d m hp
    simp only [orchestratorExtract]
    rw [hp]
  · intro e d hp hf hc
    simp only [orchestratorExtract]
    rw [hp, hf, hc]
    rfl
  · intro e e2 hp hf hc
    simp only [orchestratorExtract]
    rw [hp, hf, hc]
    rfl
  · intro e hp hf
    simp only [orchestratorExtract]
    rw [hp, hf]
    rfl

/-- Witness: the amended C4 theorem applied to the fallback environment. -/
theorem orchestrator_extract_amended_witness :
    (primaryExtract fallbackEnv (analyze plainImagePf) =
        .error "Document AI processor error" ∧
      fallbackEnv.useClaudeFallback = true ∧
      fallbackEnv.claudeExtract = .ok saturdayData) ∧
    orchestratorExtract fallbackEnv plainImagePf =
      Except.ok { data := saturdayData
                  method := "claude_error_fallback"
                  complexity := errorFallbackComplexity } :=
  ⟨⟨by decide, rfl, rfl⟩,
   (orchestrator_extract_amended fallbackEnv plainImagePf).2.1
     "Document AI processor error" saturdayData (by decide) rfl rfl⟩

end

/-! ### FileProcessor.processFile (fileProcessor.ts) -/

/-- The filesystem/library oracles one processFile run sees. -/
structure FileIOEnv where
  readFile : Except String ByteBuf
  sharpPng : ByteBuf → Except String ByteBuf
  tesseractRecognize : ByteBuf → Except String (List Char)
  pdfParse : ByteBuf → Except String (List Char)
  mammothExtract : ByteBuf → Except String (List Char)

/-- FileProcessor.processImage: read, normalize to PNG, OCR.  None of the
three awaits is guarded; any rejection propagates. -/
def processImage (env : FileIOEnv) (mimeType : List Char) (originalName : String) :
    Except String ProcessedFile := do
  let imageBuffer ← env.readFile
  let processedBuffer ← env.sharpPng imageBuffer
  let text ← env.tesseractRecognize processedBuffer
  .ok { text := some text
        imageBuffer := some imageBuffer
        mimeType := mimeType
        originalName := originalName }

/-- FileProcessor.processPDF: read, extract the text layer, pass the raw
bytes on as image evidence. -/
def processPDF (env : FileIOEnv) (mimeType : List Char) (originalName : String) :
    Except String ProcessedFile := do
  let dataBuffer ← env.readFile
  let text ← env.pdfParse dataBuffer
  .ok { text := some text
        imageBuffer := some dataBuffer
        mimeType := mimeType
        originalName := originalName }

/-- FileProcessor.processDOCX: read and extract raw text. -/
def processDOCX (env : FileIOEnv) (mimeType : List Char) (originalName : String) :
    Except String ProcessedFile := do
  let dataBuffer ← env.readFile
  let text ← env.mammothExtract dataBuffer
  .ok { text := some text
        imageBuffer := none
        mimeType := mimeType
        originalName := originalName }

/-- FileProcessor.processFile: dispatch on the MIME type; wrap any error
in a File-processing-failed error. -/
def processFile (env : FileIOEnv) (mimeType : List Char) (originalName : String) :
    Except String ProcessedFile :=
  let inner : Except String ProcessedFile :=
    if ("image/".toList).isPrefixOf mimeType then
      processImage env mimeType originalName
    else if mimeType = "application/pdf".toList then
      processPDF env mimeType originalName
    else if mimeType =
        "application/vnd.openxmlformats-officedocument.wordprocessingml.document".toList then
      processDOCX env mimeType originalName
    else
      .error ("Unsupported file type: " ++ String.mk mimeType)
  match inner with
  | .ok r => .ok r
  | .error e => .error ("File processing failed: " ++ e)

/-- An environment where reading and PNG conversion succeed but the
Tesseract OCR call rejects. -/
def ocrFailEnv : FileIOEnv :=
  { readFile := .ok [137, 80, 78, 71]
    sharpPng := fun b => .ok b
    tesseractRecognize := fun _ => .error "tesseract crashed"
    pdfParse := fun _ => .ok []
    mammothExtract := fun _ => .ok [] }

/-- C7: an OCR failure during image preprocessing ABORTS processFile with
a File-processing-failed error; it does not degrade to image-only
evidence.  (The specification and the repo's design document call OCR
best-effort, but processImage has no guard around the Tesseract call.) -/
theorem processFile_ocr_failure_aborts :
    processFile ocrFailEnv ("image/png".toList) "t.png" =
      Except.error "File processing failed: tesseract crashed" ∧
    ∀ r : ProcessedFile,
      processFile ocrFailEnv ("image/png".toList) "t.png" ≠ Except.ok r := by
  refine ⟨by decide, fun r h => ?_⟩
  have h0 : processFile ocrFailEnv ("image/png".toList) "t.png" =
      Except.error "File processing failed: tesseract crashed" := by decide
  rw [h0] at h
  simp at h

/-! ### The v2 route handlers (upload and cancel) -/

/-- Job lifecycle states (the status column of ExtractionJob). -/
inductive JobStatus where
  | pending
  | processing
  | completed
  | failed
  | cancelled
deriving DecidableEq, Repr

def statusString : JobStatus → String
  | .pending => "pending"
  | .processing => "processing"
  | .completed => "completed"
  | .failed => "failed"
  | .cancelled => "cancelled"

/-- Outcome of the DELETE /jobs/:jobId handler. -/
inductive CancelOutcome where
  | notFound
  | badRequest (msg : String)
  | cancelledOk
deriving DecidableEq, Repr

/-- The cancel route handler: 404 when the job does not exist; 400 when
its status is processing or completed; otherwise update the job's status
to cancelled and respond with success.  Returns the outcome and the job's
status after the request. -/
def cancelJob (jobStatus : Option JobStatus) : CancelOutcome × Option JobStatus :=
  match jobStatus with
  | none => (.notFound, none)
  | some s =>
    if s = JobStatus.processing ∨ s = JobStatus.completed then
      (.badRequest ("Cannot cancel job with status: " ++ statusString s), some s)
    else
      (.cancelledOk, some JobStatus.cancelled)

/-- C5: evaluating the cancel handler at every status.  A Pending job is
cancelled as claimed and Processing/Completed are refused, but a FAILED
job also passes the guard and is moved to Cancelled -- an exit from a
terminal state that the claimed transition DAG forbids (and that the
route's own doc comment, cancel pending job, does not intend). -/
theorem cancel_failed_job_is_cancelled :
    cancelJob (some JobStatus.failed) =
      (CancelOutcome.cancelledOk, some JobStatus.cancelled) ∧
    cancelJob (some JobStatus.pending) =
      (CancelOutcome.cancelledOk, some JobStatus.cancelled) ∧
    cancelJob (some JobStatus.processing) =
      (CancelOutcome.badRequest "Cannot cancel job with status: processing",
        some JobStatus.processing) ∧
    cancelJob (some JobStatus.completed) =
      (CancelOutcome.badRequest "Cannot cancel job with status: completed",
        some JobStatus.completed) ∧
    cancelJob (some JobStatus.cancelled) =
      (CancelOutcome.cancelledOk, some JobStatus.cancelled) ∧
    cancelJob none = (CancelOutcome.notFound, none) := by decide

/-- The request and service oracles one POST /upload run sees. -/
structure SubmitEnv where
  hasFile : Bool
  s3Upload : Except String String
  createJob : Except String String
  webhookUrl : Option String
  createWebhook : Except String String
  sqsSend : Except String String

/-- SQSService.enqueueJob: wraps a SendMessage rejection in an
SQS-enqueue-failed error. -/
def enqueueJob (env : SubmitEnv) : Except String String :=
  match env.sqsSend with
  | .ok msgId => .ok msgId
  | .error e => .error ("SQS enqueue failed: " ++ e)

/-- The externally visible state after one upload request. -/
structure SubmitState where
  jobStatus : Option JobStatus := none
  queueMessages : List String := []
  enqueueAttempted : Bool := false
  localFileDeleted : Bool := false
deriving DecidableEq, Repr

inductive SubmitResponse where
  | accepted (jobId : String)
  | clientError (code : Nat) (msg : String)
deriving DecidableEq, Repr

/-- The POST /upload route handler: validate the file, upload to S3,
create the job row (status pending), register the webhook if given,
enqueue to SQS, delete the temp file, respond 202.  Any rejection falls
to the catch block, which deletes the temp file and responds with an
error -- without touching the job row. -/
def uploadHandler (env : SubmitEnv) : SubmitResponse × SubmitState :=
  if !env.hasFile then (.clientError 400 "No file uploaded", {})
  else
    match env.s3Upload with
    | .error e => (.clientError 500 e, { localFileDeleted := true })
    | .ok _fileUrl =>
      match env.createJob with
      | .error e => (.clientError 500 e, { localFileDeleted := true })
      | .ok jobId =>
        let afterCreate : SubmitState := { jobStatus := some JobStatus.pending }
        match (match env.webhookUrl with
               | some _ => env.createWebhook
               | none => .ok "") with
        | .error e => (.clientError 500 e, { afterCreate with localFileDeleted := true })
        | .ok _ =>
          match enqueueJob env with
          | .error e =>
            (.clientError 500 e,
             { afterCreate with enqueueAttempted := true, localFileDeleted := true })
          | .ok _ =>
            (.accepted jobId,
             { afterCreate with
                enqueueAttempted := true
                queueMessages := [jobId]
                localFileDeleted := true })

/-- An upload whose S3 and database steps succeed but whose SQS send
fails. -/
def enqueueFailEnv : SubmitEnv :=
  { hasFile := true
    s3Upload := .ok "uploads/anonymous/1-t.png"
    createJob := .ok "job-1"
    webhookUrl := none
    createWebhook := .ok "wh-1"
    sqsSend := .error "queue unreachable" }

/-- C6 (counterexample): when the enqueue fails after the job row was
created, the handler responds 500 and no message occupies the queue, but
the job record REMAINS Pending -- it is never marked Failed (no
enqueue_error compensation exists in the route). -/
theorem submit_enqueue_failure_counterexample :
    (uploadHandler enqueueFailEnv).2.jobStatus = some JobStatus.pending ∧
    (uploadHandler enqueueFailEnv).2.jobStatus ≠ some JobStatus.failed ∧
    (uploadHandler enqueueFailEnv).2.queueMessages = [] ∧
    (uploadHandler enqueueFailEnv).1 =
      SubmitResponse.clientError 500 "SQS enqueue failed: queue unreachable" := by
  decide

/-- C6 (amended): blob upload and job creation both succeed before the
enqueue is attempted, and if the enqueue fails after the job row was
created the job record remains Pending (it is not marked Failed), no
message occupies the queue, and the client receives the wrapped enqueue
error; a message reaches the queue only on the fully successful path. -/
theorem submit_enqueue_ordering_amended (env : SubmitEnv) :
    ((uploadHandler env).2.enqueueAttempted = true →
      (∃ u, env.s3Upload = .ok u) ∧ (∃ j, env.createJob = .ok j) ∧
      (uploadHandler env).2.jobStatus = some JobStatus.pending) ∧
    (∀ e, (uploadHandler env).2.enqueueAttempted = true →
      enqueueJob env = .error e →
      (uploadHandler env).2.jobStatus = some JobStatus.pending ∧
      (uploadHandler env).2.queueMessages = [] ∧
      (uploadHandler env).1 = SubmitResponse.clientError 500 e) := by
  obtain ⟨hasFile, s3, cj, whu, cw, sqs⟩ := env
  constructor
  all_goals
    simp only [uploadHandler, enqueueJob]
    cases hasFile <;> cases s3 <;> cases cj <;> cases whu <;> cases cw <;> cases sqs <;>
      simp

/-- Witness: the amended C6 theorem applied to the failing-enqueue
environment. -/
theorem submit_enqueue_ordering_witness :
    ((uploadHandler enqueueFailEnv).2.enqueueAttempted = true ∧
      enqueueJob enqueueFailEnv = .error "SQS enqueue failed: queue unreachable") ∧
    ((uploadHandler enqueueFailEnv).2.jobStatus = some JobStatus.pending ∧
      (uploadHandler enqueueFailEnv).2.queueMessages = [] ∧
      (uploadHandler enqueueFailEnv).1 =
        SubmitResponse.clientError 500 "SQS enqueue failed: queue unreachable") :=
  ⟨⟨by decide, by decide⟩,
   (submit_enqueue_ordering_amended enqueueFailEnv).2
     "SQS enqueue failed: queue unreachable" (by decide) (by decide)⟩

/-- Input mixing valid and invalid day names. -/
def mixedDaysData : ExtractedData :=
  { blocks := [mkBlock "Saturday" 9 0 10 0 "Football",
               mkBlock "monday" 9 0 10 0 "Untitled",
               mkBlock "Monday" 9 0 10 0 "Maths"] }

/-- Witness: the C9 theorem applied to data with Saturday and lowercase
monday blocks. -/
theorem validate_invalid_day_blocks_dropped_witness :
    (∀ b ∈ (validate mixedDaysData).data.blocks, b.day ∈ DAYS) ∧
    validate { mixedDaysData with
        blocks := mixedDaysData.blocks.filter (fun b => decide (b.day ∈ DAYS)) } =
      validate mixedDaysData :=
  validate_invalid_day_blocks_dropped mixedDaysData

section
set_option allowUnsafeReducibility true
attribute [local semireducible] Rat.add Rat.ofScientific Rat.mul Rat.div Rat.inv Rat.sub

/-- A short, noisy, pseudo-handwritten scanned-PDF text: every settable
factor fires and the score reaches its maximum, the double
0.7500000000000001. -/
def handwrittenPdfPf : ProcessedFile :=
  { text := some "aB1!!\nxx!!\nqq!!".toList
    imageBuffer := none
    mimeType := "application/pdf".toList }

/-- Counterexample to the original C10 bound "the score never exceeds
0.75": on the artifact firing all four settable factors, the program's
left-to-right IEEE-double sum 0.25 + 0.3 + 0.15 + 0.05 rounds to
6755399441055745/2^53 = 0.7500000000000001, one ulp above 3/4. -/
theorem analyze_score_exceeds_counterexample :
    mkRat 3 4 < (analyze handwrittenPdfPf).score ∧
    (analyze handwrittenPdfPf).score = maxDoubleScore := by
  decide

/-- Witness: the C10 theorem applied to the maximal-score artifact, whose
level is complex and whose score exceeds 3/4, discharging both
implications. -/
theorem analyze_complexity_bounds_witness :
    (analyze handwrittenPdfPf).level = ComplexityLevel.complex ∧
    ((analyze handwrittenPdfPf).score ≤ maxDoubleScore ∧
      ((∃ t, handwrittenPdfPf.text = some t ∧ hasLowerUpperPair t = true ∧
          t.any isOCRConfusionChar = true) ∧
        (analyze handwrittenPdfPf).recommendedMethod = RecommendedMethod.claude) ∧
      ((analyzerFactors handwrittenPdfPf).1.hasLowOCRConfidence = true ∧
        (analyzerFactors handwrittenPdfPf).1.hasHandwriting = true ∧
        (analyzerFactors handwrittenPdfPf).1.hasComplexLayout = true ∧
        (analyzerFactors handwrittenPdfPf).1.isLowQuality = true)) :=
  ⟨by decide,
   ⟨(analyze_complexity_bounds handwrittenPdfPf).1,
    (analyze_complexity_bounds handwrittenPdfPf).2.1 (by decide),
    (analyze_complexity_bounds handwrittenPdfPf).2.2 (by decide)⟩⟩

end
